import Mathlib

/-!
Verification of the Game of Life engine in `src/main.rs`
(`SDartayet/conways-game-of-life`).

The board is a `Vec<Vec<CellState>>`; we embed it as a list of rows of
cells.  Rust operations that can panic (out-of-bounds indexing of a `Vec`)
are embedded as `Option`-valued functions, where `none` marks the panic.
All definitions follow the Rust source; the comments quote the
corresponding lines.
-/

namespace Conway

/-- `enum CellState { Alive, Dead }` from `src/main.rs`. -/
inductive CellState
  | Alive
  | Dead
deriving DecidableEq, Repr

/-- `struct Board(Vec<Vec<CellState>>)`: a board is a list of rows;
cell `(x, y)` lives at `board[y][x]`. -/
abbrev Board := List (List CellState)

/-- `Board::new(width, length)`: `length` rows, each a row of `width`
`Dead` cells.  The Rust constructor has no failure path: it validates
nothing and returns a board for every pair of dimensions. -/
def Board.new (width length : Nat) : Board :=
  List.replicate length (List.replicate width CellState.Dead)

/-- `get_cell_status`: `self.0[y][x].clone()`.  Indexing a `Vec` out of
bounds panics, embedded here as `none`. -/
def get_cell_status (b : Board) (x y : Nat) : Option CellState :=
  b[y]?.bind fun row => row[x]?

/-- The assignment `self.0[y][x] = c`: panics (`none`) when either index
is out of bounds, otherwise replaces exactly that cell. -/
def writeCell (b : Board) (x y : Nat) (c : CellState) : Option Board :=
  match b[y]? with
  | none => none
  | some row => if x < row.length then some (b.set y (row.set x c)) else none

/-- `swap_cell_state`: reads `self.0[y][x]` (panicking when out of
bounds) and writes back the flipped state. -/
def swap_cell_state (b : Board) (x y : Nat) : Option Board :=
  match get_cell_status b x y with
  | none => none
  | some c =>
      if c = CellState.Alive then writeCell b x y CellState.Dead
      else writeCell b x y CellState.Alive

/-- The offset range computed in `update_cell_state` for one axis:
`-1..2` when `0 < pos < len - 1`, `-1..1` when `1 < pos`, else `0..2`
(the same expression is used for `x` with `len = self.0[0].len()` and
for `y` with `len = self.0.len()`).  It is invoked by the program only
with `pos < len`, so the `usize` subtraction `len - 1` never underflows
and agrees with truncated `Nat` subtraction. -/
def offsetRange (len pos : Nat) : List Int :=
  if 0 < pos ∧ pos < len - 1 then [-1, 0, 1]
  else if 1 < pos then [-1, 0]
  else [0, 1]

/-- `idx.overflowing_add_signed(off).0`: wrapping addition of a signed
offset to a 64-bit `usize`. -/
def wrapAdd (idx : Nat) (off : Int) : Nat :=
  (((idx : Int) + off) % (2 ^ 64 : Int)).toNat

/-- The nested offset loops of `update_cell_state`, flattened into the
list of `(x_offset, y_offset)` pairs in visitation order
(`x_offset` is the outer loop). -/
def offsetPairs (w h x y : Nat) : List (Int × Int) :=
  (offsetRange w x).bind fun xo => (offsetRange h y).map fun yo => (xo, yo)

/-- The counting loop of `update_cell_state`: skip `(0, 0)`, read
`old_board.0[y + yo][x + xo]` (a panic — `none` — when out of bounds)
and count the `Alive` cells. -/
def countAlive (old : Board) (x y : Nat) : List (Int × Int) → Option Nat
  | [] => some 0
  | (xo, yo) :: rest =>
      if xo = 0 ∧ yo = 0 then countAlive old x y rest
      else
        match get_cell_status old (wrapAdd x xo) (wrapAdd y yo) with
        | none => none
        | some c =>
            match countAlive old x y rest with
            | none => none
            | some n => some ((if c = CellState.Alive then 1 else 0) + n)

/-- `alive_neighbours` as computed by `update_cell_state` for cell
`(x, y)`, with `w = self.0[0].len()` and `h = self.0.len()`. -/
def alive_neighbours (old : Board) (w h x y : Nat) : Option Nat :=
  countAlive old x y (offsetPairs w h x y)

/-- `update_cell_state(&mut self, old_board, x, y)`: reads
`self.0[0].len()` (a panic on an empty board), counts the alive
neighbours in the snapshot, then applies the rule match:
`0..=1 => Dead`, `3..=3 => Alive`, `4..=8 => Dead`, `_ => {}`. -/
def update_cell_state (b old : Board) (x y : Nat) : Option Board :=
  match b[0]? with
  | none => none
  | some row0 =>
      match alive_neighbours old row0.length b.length x y with
      | none => none
      | some n =>
          if n ≤ 1 then writeCell b x y CellState.Dead
          else if n = 3 then writeCell b x y CellState.Alive
          else if 4 ≤ n ∧ n ≤ 8 then writeCell b x y CellState.Dead
          else some b

/-- The inner loop of `update_board`: `for x in 0..self.0[0].len()`,
updating cell `(x, y)` of the evolving board against the snapshot. -/
def updateRowCells (old : Board) (y : Nat) : List Nat → Board → Option Board
  | [], b => some b
  | x :: xs, b =>
      match update_cell_state b old x y with
      | none => none
      | some b2 => updateRowCells old y xs b2

/-- The outer loop of `update_board`: `for y in 0..self.0.len()`.  The
bound `self.0[0].len()` of the inner loop is read from the live board at
each `y` (a panic when the board has no rows). -/
def updateRows (old : Board) : List Nat → Board → Option Board
  | [], b => some b
  | y :: ys, b =>
      match b[0]? with
      | none => none
      | some row0 =>
          match updateRowCells old y (List.range row0.length) b with
          | none => none
          | some b2 => updateRows old ys b2

/-- `update_board`: clones the board once (`board_old`) and sweeps every
cell of the live board, reading neighbours only from the clone. -/
def update_board (b : Board) : Option Board :=
  updateRows b (List.range b.length) b

/-- The outcome of the rule match of `update_cell_state` for a cell whose
pre-update content is `cur`, given `n` alive neighbours: `0..=1` and
`4..=8` yield `Dead`, `3` yields `Alive`, anything else leaves the cell
untouched. -/
def ruleOut (n : Nat) (cur : Option CellState) : Option CellState :=
  if n ≤ 1 then some CellState.Dead
  else if n = 3 then some CellState.Alive
  else if 4 ≤ n ∧ n ≤ 8 then some CellState.Dead
  else cur

/-- The board shape invariant: `h` rows, each of length `w`. -/
def rectangular (w h : Nat) (b : Board) : Prop :=
  b.length = h ∧ ∀ row ∈ b, row.length = w

instance (w h : Nat) (b : Board) : Decidable (rectangular w h b) := by
  unfold rectangular; infer_instance

/-- Boards reachable from `Board::new` through successful
`swap_cell_state` and `update_board` calls. -/
inductive Reachable (w h : Nat) : Board → Prop
  | init : Reachable w h (Board.new w h)
  | toggle {b b2 : Board} {x y : Nat} :
      Reachable w h b → swap_cell_state b x y = some b2 → Reachable w h b2
  | advance {b b2 : Board} :
      Reachable w h b → update_board b = some b2 → Reachable w h b2

/-- A 3×3 board with an L-tromino alive at `(0,0)`, `(1,0)`, `(0,1)` —
the configuration used by the unit tests of the repository. -/
def trominoBoard : Board :=
  [[CellState.Alive, CellState.Alive, CellState.Dead],
   [CellState.Alive, CellState.Dead, CellState.Dead],
   [CellState.Dead, CellState.Dead, CellState.Dead]]

/-- The board obtained from `trominoBoard` by one `update_board`: the
2×2 block still life. -/
def trominoNext : Board :=
  [[CellState.Alive, CellState.Alive, CellState.Dead],
   [CellState.Alive, CellState.Alive, CellState.Dead],
   [CellState.Dead, CellState.Dead, CellState.Dead]]

/-! ### Basic lemmas about the embedding -/

/-- Writing back the value already stored at an index leaves a list
unchanged. -/
theorem set_of_getElem? {α : Type _} {l : List α} {n : Nat} {a : α}
    (h : l[n]? = some a) : l.set n a = l := by
  induction l generalizing n with
  | nil => simp at h
  | cons hd tl ih =>
      cases n with
      | zero =>
          simp only [List.getElem?_cons_zero, Option.some.injEq] at h
          simp [h]
      | succ m =>
          simp only [List.getElem?_cons_succ] at h
          simp [List.set, ih h]

theorem writeCell_eq_some {b : Board} {x y : Nat} {c : CellState} {b' : Board} :
    writeCell b x y c = some b' ↔
      ∃ row, b[y]? = some row ∧ x < row.length ∧ b' = b.set y (row.set x c) := by
  unfold writeCell
  cases hrow : b[y]? with
  | none => simp
  | some row =>
      by_cases hx : x < row.length
      · simp only [hx, if_true, Option.some.injEq]
        constructor
        · intro h; exact ⟨row, rfl, hx, h.symm⟩
        · rintro ⟨row', hrow', hx', rfl⟩
          cases hrow'; rfl
      · simp only [hx, if_false]
        constructor
        · intro h; cases h
        · rintro ⟨row', hrow', hx', rfl⟩
          cases hrow'; exact absurd hx' hx

/-- A write at a coordinate known to be in bounds succeeds. -/
theorem writeCell_succeeds {b : Board} {x y : Nat} {row : List CellState}
    (hrow : b[y]? = some row) (hx : x < row.length) (c : CellState) :
    writeCell b x y c = some (b.set y (row.set x c)) :=
  writeCell_eq_some.mpr ⟨row, hrow, hx, rfl⟩

/-- Unfolding a successful read into its row and cell lookups. -/
theorem get_cell_status_eq_some {b : Board} {x y : Nat} {c : CellState} :
    get_cell_status b x y = some c ↔
      ∃ row, b[y]? = some row ∧ row[x]? = some c := by
  unfold get_cell_status
  cases hrow : b[y]? <;> simp

/-- Toggling a cell read as `Alive` writes `Dead`. -/
theorem swap_cell_state_alive {b : Board} {x y : Nat}
    (hget : get_cell_status b x y = some CellState.Alive) :
    swap_cell_state b x y = writeCell b x y CellState.Dead := by
  unfold swap_cell_state
  rw [hget]
  rfl

/-- Toggling a cell read as `Dead` writes `Alive`. -/
theorem swap_cell_state_dead {b : Board} {x y : Nat}
    (hget : get_cell_status b x y = some CellState.Dead) :
    swap_cell_state b x y = writeCell b x y CellState.Alive := by
  unfold swap_cell_state
  rw [hget]
  rfl

/-- A successful write stores the new state at the written coordinate. -/
theorem get_writeCell_self {b b' : Board} {x y : Nat} {c : CellState}
    (h : writeCell b x y c = some b') : get_cell_status b' x y = some c := by
  rcases writeCell_eq_some.mp h with ⟨row, hrow, hx, rfl⟩
  have hy : y < b.length := (List.getElem?_eq_some_iff.mp hrow).1
  unfold get_cell_status
  rw [List.getElem?_set_self (by simpa using hy)]
  simp [List.getElem?_set_self (by simpa using hx)]

/-- A successful write leaves every other coordinate unchanged. -/
theorem get_writeCell_ne {b b' : Board} {x y x' y' : Nat} {c : CellState}
    (h : writeCell b x y c = some b') (hne : ¬(x' = x ∧ y' = y)) :
    get_cell_status b' x' y' = get_cell_status b x' y' := by
  rcases writeCell_eq_some.mp h with ⟨row, hrow, hx, rfl⟩
  unfold get_cell_status
  by_cases hy : y' = y
  · subst hy
    have hx' : x ≠ x' := fun hh => hne ⟨hh.symm, rfl⟩
    have hylt : y' < b.length := (List.getElem?_eq_some_iff.mp hrow).1
    rw [List.getElem?_set_self (by simpa using hylt), hrow]
    simp [List.getElem?_set_ne hx']
  · rw [List.getElem?_set_ne (fun hh => hy hh.symm)]

/-- A successful write preserves the board shape. -/
theorem rectangular_writeCell {w h : Nat} {b b' : Board} {x y : Nat} {c : CellState}
    (hr : rectangular w h b) (hw : writeCell b x y c = some b') :
    rectangular w h b' := by
  rcases writeCell_eq_some.mp hw with ⟨row, hrow, hx, rfl⟩
  rcases hr with ⟨hlen, hrows⟩
  refine ⟨by simpa using hlen, ?_⟩
  intro r hr'
  rcases List.mem_or_eq_of_mem_set hr' with hmem | rfl
  · exact hrows r hmem
  · simpa using hrows row (List.getElem?_mem hrow)

/-- On a rectangular board every row index below the height yields a row
of the right width. -/
theorem rectangular_row {w h : Nat} {b : Board} (hr : rectangular w h b) {y : Nat}
    (hy : y < h) : ∃ row, b[y]? = some row ∧ row.length = w := by
  rcases hr with ⟨hlen, hrows⟩
  have hy' : y < b.length := hlen ▸ hy
  exact ⟨b[y], List.getElem?_eq_getElem hy', hrows _ (List.getElem_mem hy')⟩

/-- In-bounds reads on a rectangular board succeed. -/
theorem get_in_bounds {w h x y : Nat} {b : Board} (hr : rectangular w h b)
    (hx : x < w) (hy : y < h) : ∃ c, get_cell_status b x y = some c := by
  rcases rectangular_row hr hy with ⟨row, hrow, hwidth⟩
  have hx' : x < row.length := hwidth ▸ hx
  exact ⟨row[x], by simp [get_cell_status, hrow, List.getElem?_eq_getElem hx']⟩

/-- Out-of-bounds reads on a rectangular board hit the panic path. -/
theorem get_out_of_bounds {w h x y : Nat} {b : Board} (hr : rectangular w h b)
    (hout : w ≤ x ∨ h ≤ y) : get_cell_status b x y = none := by
  rcases hr with ⟨hlen, hrows⟩
  unfold get_cell_status
  by_cases hy : y < b.length
  · rw [List.getElem?_eq_getElem hy]
    have hrw : (b[y]).length = w := hrows _ (List.getElem_mem hy)
    rcases hout with hx | hyy
    · simp [List.getElem?_eq_none (hrw ▸ hx)]
    · exact absurd hy (by omega)
  · rw [List.getElem?_eq_none (by omega)]
    rfl

/-- `Board::new` builds a well-formed `w × h` grid for every pair of
dimensions, zero included. -/
theorem rectangular_new (w h : Nat) : rectangular w h (Board.new w h) := by
  constructor
  · simp [Board.new]
  · intro row hrow
    rw [List.eq_of_mem_replicate hrow]
    simp

/-- A successful `swap_cell_state` preserves the board shape. -/
theorem rectangular_swap {w h : Nat} {b b' : Board} {x y : Nat}
    (hr : rectangular w h b) (hsw : swap_cell_state b x y = some b') :
    rectangular w h b' := by
  unfold swap_cell_state at hsw
  split at hsw
  · cases hsw
  · split at hsw
    · exact rectangular_writeCell hr hsw
    · exact rectangular_writeCell hr hsw

/-! ### Characterization of one cell update -/

/-- Case analysis of a successful `update_cell_state` call along the
arms of the rule match. -/
theorem update_cell_state_eq_some {b old b' : Board} {x y : Nat}
    (hu : update_cell_state b old x y = some b') :
    ∃ row0, b[0]? = some row0 ∧
      ∃ n, alive_neighbours old row0.length b.length x y = some n ∧
        ((n ≤ 1 ∧ writeCell b x y CellState.Dead = some b') ∨
         (¬n ≤ 1 ∧ n = 3 ∧ writeCell b x y CellState.Alive = some b') ∨
         (¬n ≤ 1 ∧ n ≠ 3 ∧ (4 ≤ n ∧ n ≤ 8) ∧
            writeCell b x y CellState.Dead = some b') ∨
         (¬n ≤ 1 ∧ n ≠ 3 ∧ ¬(4 ≤ n ∧ n ≤ 8) ∧ b' = b)) := by
  unfold update_cell_state at hu
  split at hu
  · cases hu
  · rename_i row0 h0
    split at hu
    · cases hu
    · rename_i n hn
      refine ⟨row0, h0, n, hn, ?_⟩
      by_cases h1 : n ≤ 1
      · rw [if_pos h1] at hu; exact Or.inl ⟨h1, hu⟩
      · rw [if_neg h1] at hu
        by_cases h3 : n = 3
        · rw [if_pos h3] at hu; exact Or.inr (Or.inl ⟨h1, h3, hu⟩)
        · rw [if_neg h3] at hu
          by_cases h48 : 4 ≤ n ∧ n ≤ 8
          · rw [if_pos h48] at hu
            exact Or.inr (Or.inr (Or.inl ⟨h1, h3, h48, hu⟩))
          · rw [if_neg h48] at hu
            cases hu
            exact Or.inr (Or.inr (Or.inr ⟨h1, h3, h48, rfl⟩))

/-- A successful cell update preserves the board shape. -/
theorem rectangular_update_cell {w h : Nat} {b old b' : Board} {x y : Nat}
    (hr : rectangular w h b) (hu : update_cell_state b old x y = some b') :
    rectangular w h b' := by
  rcases update_cell_state_eq_some hu with ⟨row0, h0, n, hn, hcase⟩
  rcases hcase with ⟨_, hw⟩ | ⟨_, _, hw⟩ | ⟨_, _, _, hw⟩ | ⟨_, _, _, rfl⟩
  · exact rectangular_writeCell hr hw
  · exact rectangular_writeCell hr hw
  · exact rectangular_writeCell hr hw
  · exact hr

/-- A successful cell update touches no coordinate other than `(x, y)`. -/
theorem get_update_cell_ne {b old b' : Board} {x y x' y' : Nat}
    (hu : update_cell_state b old x y = some b') (hne : ¬(x' = x ∧ y' = y)) :
    get_cell_status b' x' y' = get_cell_status b x' y' := by
  rcases update_cell_state_eq_some hu with ⟨row0, h0, n, hn, hcase⟩
  rcases hcase with ⟨_, hw⟩ | ⟨_, _, hw⟩ | ⟨_, _, _, hw⟩ | ⟨_, _, _, rfl⟩
  · exact get_writeCell_ne hw hne
  · exact get_writeCell_ne hw hne
  · exact get_writeCell_ne hw hne
  · rfl

/-- A successful cell update stores at `(x, y)` the outcome of the rule
on the snapshot count. -/
theorem get_update_cell_self {w h : Nat} {b old b' : Board} {x y : Nat}
    (hr : rectangular w h b) (hu : update_cell_state b old x y = some b') :
    ∃ n, alive_neighbours old w h x y = some n ∧
      get_cell_status b' x y = ruleOut n (get_cell_status b x y) := by
  rcases update_cell_state_eq_some hu with ⟨row0, h0, n, hn, hcase⟩
  have hw0 : row0.length = w := hr.2 _ (List.getElem?_mem h0)
  have hh : b.length = h := hr.1
  rw [hw0, hh] at hn
  refine ⟨n, hn, ?_⟩
  rcases hcase with ⟨h1, hw⟩ | ⟨h1, h3, hw⟩ | ⟨h1, h3, h48, hw⟩ | ⟨h1, h3, h48, rfl⟩
  · rw [get_writeCell_self hw]; simp [ruleOut, h1]
  · rw [get_writeCell_self hw]; simp [ruleOut, h1, h3]
  · rw [get_writeCell_self hw]; simp [ruleOut, h1, h3, h48]
  · simp [ruleOut, h1, h3, h48]

/-! ### Bounding the neighbour count -/

theorem countAlive_le_length {old : Board} {x y : Nat} {ps : List (Int × Int)}
    {n : Nat} (h : countAlive old x y ps = some n) : n ≤ ps.length := by
  induction ps generalizing n with
  | nil =>
      unfold countAlive at h
      cases h
      exact Nat.le_refl 0
  | cons p rest ih =>
      obtain ⟨xo, yo⟩ := p
      unfold countAlive at h
      by_cases hc : xo = 0 ∧ yo = 0
      · rw [if_pos hc] at h
        have := ih h
        simp only [List.length_cons]
        omega
      · rw [if_neg hc] at h
        cases hg : get_cell_status old (wrapAdd x xo) (wrapAdd y yo) with
        | none => rw [hg] at h; cases h
        | some c =>
            rw [hg] at h
            cases hrc : countAlive old x y rest with
            | none => rw [hrc] at h; cases h
            | some m =>
                rw [hrc] at h
                cases h
                have := ih hrc
                simp only [List.length_cons]
                split <;> omega

theorem countAlive_lt_of_zero_mem {old : Board} {x y : Nat}
    {ps : List (Int × Int)} {n : Nat} (h : countAlive old x y ps = some n)
    (hmem : ((0 : Int), (0 : Int)) ∈ ps) : n < ps.length := by
  induction ps generalizing n with
  | nil => cases hmem
  | cons p rest ih =>
      obtain ⟨xo, yo⟩ := p
      unfold countAlive at h
      by_cases hc : xo = 0 ∧ yo = 0
      · rw [if_pos hc] at h
        have := countAlive_le_length h
        simp only [List.length_cons]
        omega
      · rw [if_neg hc] at h
        have hmem' : ((0 : Int), (0 : Int)) ∈ rest := by
          rcases List.mem_cons.mp hmem with heq | h'
          · injection heq with h1 h2
            exact absurd ⟨h1.symm, h2.symm⟩ hc
          · exact h'
        cases hg : get_cell_status old (wrapAdd x xo) (wrapAdd y yo) with
        | none => rw [hg] at h; cases h
        | some c =>
            rw [hg] at h
            cases hrc : countAlive old x y rest with
            | none => rw [hrc] at h; cases h
            | some m =>
                rw [hrc] at h
                cases h
                have := ih hrc hmem'
                simp only [List.length_cons]
                split <;> omega

theorem offsetRange_cases (len pos : Nat) :
    offsetRange len pos = [-1, 0, 1] ∨ offsetRange len pos = [-1, 0] ∨
      offsetRange len pos = [0, 1] := by
  unfold offsetRange
  split
  · exact Or.inl rfl
  · split
    · exact Or.inr (Or.inl rfl)
    · exact Or.inr (Or.inr rfl)

theorem zero_mem_offsetRange (len pos : Nat) : (0 : Int) ∈ offsetRange len pos := by
  rcases offsetRange_cases len pos with h | h | h <;> rw [h] <;> simp

theorem zero_pair_mem_offsetPairs (w h x y : Nat) :
    ((0 : Int), (0 : Int)) ∈ offsetPairs w h x y := by
  unfold offsetPairs
  exact List.mem_bind.mpr
    ⟨0, zero_mem_offsetRange w x,
      List.mem_map.mpr ⟨0, zero_mem_offsetRange h y, rfl⟩⟩

theorem offsetPairs_length_le (w h x y : Nat) :
    (offsetPairs w h x y).length ≤ 9 := by
  unfold offsetPairs
  rcases offsetRange_cases w x with hx | hx | hx <;>
    rcases offsetRange_cases h y with hy | hy | hy <;>
      rw [hx, hy] <;> decide

/-- The count produced by `update_cell_state` never exceeds 8: the pair
`(0, 0)` always belongs to the offset set and is skipped. -/
theorem alive_neighbours_le_eight {old : Board} {w h x y n : Nat}
    (hn : alive_neighbours old w h x y = some n) : n ≤ 8 := by
  have h1 := countAlive_lt_of_zero_mem hn (zero_pair_mem_offsetPairs w h x y)
  have h2 := offsetPairs_length_le w h x y
  omega

/-! ### The sweep of `update_board` -/

theorem rectangular_updateRowCells {w h : Nat} {old : Board} {y : Nat}
    {xs : List Nat} {b b' : Board} (hr : rectangular w h b)
    (hu : updateRowCells old y xs b = some b') : rectangular w h b' := by
  induction xs generalizing b with
  | nil => cases hu; exact hr
  | cons x xs ih =>
      unfold updateRowCells at hu
      split at hu
      · cases hu
      · rename_i b2 hcell
        exact ih (rectangular_update_cell hr hcell) hu

theorem get_updateRowCells_ne {old : Board} {y : Nat} {xs : List Nat}
    {b b' : Board} (hu : updateRowCells old y xs b = some b') {x' y' : Nat}
    (hne : y' ≠ y ∨ x' ∉ xs) :
    get_cell_status b' x' y' = get_cell_status b x' y' := by
  induction xs generalizing b with
  | nil => cases hu; rfl
  | cons x xs ih =>
      unfold updateRowCells at hu
      split at hu
      · cases hu
      · rename_i b2 hcell
        have hne1 : ¬(x' = x ∧ y' = y) := by
          rcases hne with hy | hx
          · exact fun hh => hy hh.2
          · exact fun hh => hx (hh.1 ▸ List.mem_cons_self x xs)
        have hne2 : y' ≠ y ∨ x' ∉ xs := by
          rcases hne with hy | hx
          · exact Or.inl hy
          · exact Or.inr (fun hh => hx (List.mem_cons_of_mem x hh))
        rw [ih hu hne2, get_update_cell_ne hcell hne1]

theorem get_updateRowCells_self {w h : Nat} {old : Board} {y : Nat}
    {xs : List Nat} {b b' : Board} {x : Nat} (hr : rectangular w h b)
    (hmem : x ∈ xs) (hnd : xs.Nodup)
    (hu : updateRowCells old y xs b = some b') :
    ∃ n, alive_neighbours old w h x y = some n ∧
      get_cell_status b' x y = ruleOut n (get_cell_status b x y) := by
  induction xs generalizing b with
  | nil => cases hmem
  | cons z xs ih =>
      unfold updateRowCells at hu
      split at hu
      · cases hu
      · rename_i b2 hcell
        by_cases hxz : x = z
        · subst hxz
          have hnot : x ∉ xs := (List.nodup_cons.mp hnd).1
          rcases get_update_cell_self hr hcell with ⟨n, hn, hval⟩
          refine ⟨n, hn, ?_⟩
          rw [get_updateRowCells_ne hu (Or.inr hnot), hval]
        · have hmem' : x ∈ xs := by
            rcases List.mem_cons.mp hmem with h | h
            · exact absurd h hxz
            · exact h
          have hr2 := rectangular_update_cell hr hcell
          rcases ih hr2 hmem' (List.nodup_cons.mp hnd).2 hu with ⟨n, hn, hval⟩
          refine ⟨n, hn, ?_⟩
          rw [hval, get_update_cell_ne hcell (fun hh => hxz hh.1)]

theorem rectangular_updateRows {w h : Nat} {old : Board} {ys : List Nat}
    {b b' : Board} (hr : rectangular w h b)
    (hu : updateRows old ys b = some b') : rectangular w h b' := by
  induction ys generalizing b with
  | nil => cases hu; exact hr
  | cons y ys ih =>
      unfold updateRows at hu
      split at hu
      · cases hu
      · rename_i row0 h0
        split at hu
        · cases hu
        · rename_i b2 hcells
          exact ih (rectangular_updateRowCells hr hcells) hu

theorem get_updateRows_ne {old : Board} {ys : List Nat} {b b' : Board}
    (hu : updateRows old ys b = some b') {x' y' : Nat} (hny : y' ∉ ys) :
    get_cell_status b' x' y' = get_cell_status b x' y' := by
  induction ys generalizing b with
  | nil => cases hu; rfl
  | cons y ys ih =>
      unfold updateRows at hu
      split at hu
      · cases hu
      · rename_i row0 h0
        split at hu
        · cases hu
        · rename_i b2 hcells
          have hyy : y' ≠ y := fun hh => hny (hh ▸ List.mem_cons_self y ys)
          have hys : y' ∉ ys := fun hh => hny (List.mem_cons_of_mem y hh)
          rw [ih hu hys, get_updateRowCells_ne hcells (Or.inl hyy)]

theorem get_updateRows_self {w h : Nat} {old : Board} {ys : List Nat}
    {b b' : Board} {x y : Nat} (hr : rectangular w h b) (hx : x < w)
    (hmem : y ∈ ys) (hnd : ys.Nodup) (hu : updateRows old ys b = some b') :
    ∃ n, alive_neighbours old w h x y = some n ∧
      get_cell_status b' x y = ruleOut n (get_cell_status b x y) := by
  induction ys generalizing b with
  | nil => cases hmem
  | cons z ys ih =>
      unfold updateRows at hu
      split at hu
      · cases hu
      · rename_i row0 h0
        split at hu
        · cases hu
        · rename_i b2 hcells
          have hw0 : row0.length = w := hr.2 _ (List.getElem?_mem h0)
          by_cases hyz : y = z
          · subst hyz
            have hnot : y ∉ ys := (List.nodup_cons.mp hnd).1
            have hmemx : x ∈ List.range row0.length := by
              rw [hw0]; exact List.mem_range.mpr hx
            rcases get_updateRowCells_self hr hmemx
                (List.nodup_range _) hcells with ⟨n, hn, hval⟩
            refine ⟨n, hn, ?_⟩
            rw [get_updateRows_ne hu hnot, hval]
          · have hmem' : y ∈ ys := by
              rcases List.mem_cons.mp hmem with h | h
              · exact absurd h hyz
              · exact h
            have hr2 := rectangular_updateRowCells hr hcells
            rcases ih hr2 hmem' (List.nodup_cons.mp hnd).2 hu with ⟨n, hn, hval⟩
            refine ⟨n, hn, ?_⟩
            rw [hval, get_updateRowCells_ne hcells (Or.inl hyz)]

/-- A successful `update_board` preserves the board shape. -/
theorem rectangular_update_board {w h : Nat} {b b' : Board}
    (hr : rectangular w h b) (hu : update_board b = some b') :
    rectangular w h b' :=
  rectangular_updateRows hr hu

/-- The central characterization of a successful `update_board`: each
in-bounds cell of the result is the rule outcome on the neighbour count
taken in the pre-update snapshot. -/
theorem get_update_board {w h x y : Nat} {b b' : Board}
    (hr : rectangular w h b) (hx : x < w) (hy : y < h)
    (hu : update_board b = some b') :
    ∃ n, alive_neighbours b w h x y = some n ∧
      get_cell_status b' x y = ruleOut n (get_cell_status b x y) := by
  unfold update_board at hu
  have hmem : y ∈ List.range b.length := by
    rw [hr.1]; exact List.mem_range.mpr hy
  exact get_updateRows_self hr hx hmem (List.nodup_range _) hu

/-! ### The claims -/

/-- C1: the claim that no neighbour read of `advance` ever references a
coordinate outside the grid fails on the code.  On a 1×1 board the
offset sets computed for the corner cell `(0, 0)` are `{0, 1}` on both
axes, so the counting loop reads `(0, 1)`, `(1, 0)` and `(1, 1)` — all
outside the grid — and the count hits the out-of-bounds panic, embedded
as `none`. -/
theorem claim_C1_neighbour_read_out_of_bounds :
    offsetPairs 1 1 0 0 = [(0, 0), (0, 1), (1, 0), (1, 1)] ∧
      alive_neighbours (Board.new 1 1) 1 1 0 0 = none := by
  constructor
  · decide
  · decide

/-- C2: after a successful `update_board`, every in-bounds cell holds
`Dead` when its snapshot-derived neighbour count is at most 1, its
pre-update state when the count is exactly 2, `Alive` when the count is
exactly 3, and `Dead` when the count is 4 or more. -/
theorem claim_C2_rule_application (w h x y : Nat) (b b' : Board)
    (hr : rectangular w h b) (hx : x < w) (hy : y < h)
    (hadv : update_board b = some b') :
    ∃ n, alive_neighbours b w h x y = some n ∧
      (n ≤ 1 → get_cell_status b' x y = some CellState.Dead) ∧
      (n = 2 → get_cell_status b' x y = get_cell_status b x y) ∧
      (n = 3 → get_cell_status b' x y = some CellState.Alive) ∧
      (4 ≤ n → get_cell_status b' x y = some CellState.Dead) := by
  rcases get_update_board hr hx hy hadv with ⟨n, hn, hval⟩
  have hle8 := alive_neighbours_le_eight hn
  refine ⟨n, hn, ?_, ?_, ?_, ?_⟩
  · intro h1
    rw [hval]; unfold ruleOut; rw [if_pos h1]
  · intro h2; subst h2
    rw [hval]; unfold ruleOut
    rw [if_neg (by omega), if_neg (by omega), if_neg (by omega)]
  · intro h3; subst h3
    rw [hval]; unfold ruleOut
    rw [if_neg (by omega), if_pos rfl]
  · intro h4
    rw [hval]; unfold ruleOut
    rw [if_neg (by omega), if_neg (by omega), if_pos ⟨h4, hle8⟩]

/-- Witness for C2 at the L-tromino test scenario of the repository on a
3×3 board: the count at `(1, 1)` is 3 and the cell comes alive. -/
theorem claim_C2_witness :
    ∃ n, alive_neighbours trominoBoard 3 3 1 1 = some n ∧
      (n ≤ 1 → get_cell_status trominoNext 1 1 = some CellState.Dead) ∧
      (n = 2 → get_cell_status trominoNext 1 1 = get_cell_status trominoBoard 1 1) ∧
      (n = 3 → get_cell_status trominoNext 1 1 = some CellState.Alive) ∧
      (4 ≤ n → get_cell_status trominoNext 1 1 = some CellState.Dead) :=
  claim_C2_rule_application 3 3 1 1 trominoBoard trominoNext
    (by decide) (by decide) (by decide) (by decide)

/-- C3: the claim that `advance` is total over every validly constructed
grid fails on the code: on the 1×1 board (both dimensions positive) the
sweep reads out of bounds and panics, embedded as `none`. -/
theorem claim_C3_advance_panics_on_1x1 :
    update_board (Board.new 1 1) = none := by decide

/-- C4 counterexample: `Board::new` has no failure path at all.  Called
with width 0 it returns a board of five empty rows instead of signaling
an `InvalidDimensions` error (its result type in the source is `Self`,
not a `Result`, and no panic can occur). -/
theorem claim_C4_counterexample :
    Board.new 0 5 = [[], [], [], [], []] := by decide

/-- C4 amended: `new` validates nothing and never fails: for every
`width` and `height` — zero included — it returns a well-formed
`width × height` grid. -/
theorem claim_C4_new_never_fails (w h : Nat) :
    rectangular w h (Board.new w h) :=
  rectangular_new w h

/-- C5: the claim that `advance` succeeds and is a no-op on an all-`Dead`
board of any positive size fails on the code: on the all-`Dead` 2×2
board the sweep reads column 2 out of bounds and panics (`none`) instead
of returning the board unchanged. -/
theorem claim_C5_advance_empty_panics_on_2x2 :
    update_board (Board.new 2 2) = none := by decide

/-- C6: on a rectangular board, a coordinate outside
`[0, width) × [0, height)` makes both `get_cell_status` and
`swap_cell_state` hit the out-of-bounds panic (`none`): the call is
rejected, never clamped, wrapped, or silently ignored. -/
theorem claim_C6_out_of_bounds_fail_fast (w h x y : Nat) (b : Board)
    (hr : rectangular w h b) (hout : w ≤ x ∨ h ≤ y) :
    get_cell_status b x y = none ∧ swap_cell_state b x y = none := by
  have hget := get_out_of_bounds hr hout
  refine ⟨hget, ?_⟩
  unfold swap_cell_state
  rw [hget]

/-- Witness for C6: reading or toggling column 5 of a 2×2 board fails. -/
theorem claim_C6_witness :
    get_cell_status (Board.new 2 2) 5 0 = none ∧
      swap_cell_state (Board.new 2 2) 5 0 = none :=
  claim_C6_out_of_bounds_fail_fast 2 2 5 0 (Board.new 2 2) (by decide)
    (Or.inl (by decide))

/-- C7: two successive successful toggles of the same cell restore the
board exactly. -/
theorem claim_C7_toggle_involutive (x y : Nat) (b b1 b2 : Board)
    (h1 : swap_cell_state b x y = some b1)
    (h2 : swap_cell_state b1 x y = some b2) : b2 = b := by
  unfold swap_cell_state at h1
  split at h1
  · cases h1
  · rename_i c hget
    rcases get_cell_status_eq_some.mp hget with ⟨row, hrow, hcell⟩
    have hylt : y < b.length := (List.getElem?_eq_some_iff.mp hrow).1
    cases c with
    | Alive =>
        rw [if_pos rfl] at h1
        rcases writeCell_eq_some.mp h1 with ⟨row', hrow', hx', heq⟩
        have hrr : row = row' := Option.some.inj (hrow.symm.trans hrow')
        subst hrr; subst heq
        have hg1 : get_cell_status (b.set y (row.set x CellState.Dead)) x y
            = some CellState.Dead := get_writeCell_self h1
        unfold swap_cell_state at h2
        split at h2
        · cases h2
        · rename_i c2 hget2
          rw [hg1] at hget2
          cases hget2
          rw [if_neg (by intro hh; cases hh)] at h2
          rcases writeCell_eq_some.mp h2 with ⟨row2, hrow2, hx2, heq2⟩
          have hrow2' : row2 = row.set x CellState.Dead := by
            rw [List.getElem?_set_self (by simpa using hylt)] at hrow2
            exact (Option.some.inj hrow2).symm
          subst hrow2'; subst heq2
          rw [List.set_set, List.set_set, set_of_getElem? hcell,
            set_of_getElem? hrow]
    | Dead =>
        rw [if_neg (by intro hh; cases hh)] at h1
        rcases writeCell_eq_some.mp h1 with ⟨row', hrow', hx', heq⟩
        have hrr : row = row' := Option.some.inj (hrow.symm.trans hrow')
        subst hrr; subst heq
        have hg1 : get_cell_status (b.set y (row.set x CellState.Alive)) x y
            = some CellState.Alive := get_writeCell_self h1
        unfold swap_cell_state at h2
        split at h2
        · cases h2
        · rename_i c2 hget2
          rw [hg1] at hget2
          cases hget2
          rw [if_pos rfl] at h2
          rcases writeCell_eq_some.mp h2 with ⟨row2, hrow2, hx2, heq2⟩
          have hrow2' : row2 = row.set x CellState.Alive := by
            rw [List.getElem?_set_self (by simpa using hylt)] at hrow2
            exact (Option.some.inj hrow2).symm
          subst hrow2'; subst heq2
          rw [List.set_set, List.set_set, set_of_getElem? hcell,
            set_of_getElem? hrow]

/-- Witness for C7: toggling the single cell of a 1×1 board twice gives
back the all-`Dead` board. -/
theorem claim_C7_witness : ([[CellState.Dead]] : Board) = [[CellState.Dead]] :=
  claim_C7_toggle_involutive 0 0 [[CellState.Dead]] [[CellState.Alive]]
    [[CellState.Dead]] (by decide) (by decide)

/-- C8: every in-bounds read on a freshly constructed board returns
`Dead`. -/
theorem claim_C8_new_all_dead (w h x y : Nat) (hx : x < w) (hy : y < h) :
    get_cell_status (Board.new w h) x y = some CellState.Dead := by
  unfold get_cell_status Board.new
  rw [List.getElem?_replicate]
  simp [hx, hy, List.getElem?_replicate]

/-- Witness for C8 at the default 50×30 board of the program. -/
theorem claim_C8_witness :
    get_cell_status (Board.new 50 30) 49 29 = some CellState.Dead :=
  claim_C8_new_all_dead 50 30 49 29 (by decide) (by decide)

/-- C9: an in-bounds toggle succeeds, flips exactly the addressed cell
between `Alive` and `Dead`, and leaves every other coordinate of the
board unchanged. -/
theorem claim_C9_toggle_flips_exactly_one (w h x y : Nat) (b : Board)
    (hr : rectangular w h b) (hx : x < w) (hy : y < h) :
    ∃ b', swap_cell_state b x y = some b' ∧
      ((get_cell_status b x y = some CellState.Alive ∧
          get_cell_status b' x y = some CellState.Dead) ∨
       (get_cell_status b x y = some CellState.Dead ∧
          get_cell_status b' x y = some CellState.Alive)) ∧
      ∀ x' y', ¬(x' = x ∧ y' = y) →
        get_cell_status b' x' y' = get_cell_status b x' y' := by
  rcases get_in_bounds hr hx hy with ⟨c, hget⟩
  rcases get_cell_status_eq_some.mp hget with ⟨row, hrow, hcell⟩
  have hxlt : x < row.length := (List.getElem?_eq_some_iff.mp hcell).1
  cases c with
  | Alive =>
      rw [swap_cell_state_alive hget]
      have hw := writeCell_succeeds hrow hxlt CellState.Dead
      refine ⟨_, hw, Or.inl ⟨hget, get_writeCell_self hw⟩, ?_⟩
      intro x' y' hne
      exact get_writeCell_ne hw hne
  | Dead =>
      rw [swap_cell_state_dead hget]
      have hw := writeCell_succeeds hrow hxlt CellState.Alive
      refine ⟨_, hw, Or.inr ⟨hget, get_writeCell_self hw⟩, ?_⟩
      intro x' y' hne
      exact get_writeCell_ne hw hne

/-- Witness for C9: toggling `(0, 1)` on the fresh 2×2 board. -/
theorem claim_C9_witness :
    ∃ b', swap_cell_state (Board.new 2 2) 0 1 = some b' ∧
      ((get_cell_status (Board.new 2 2) 0 1 = some CellState.Alive ∧
          get_cell_status b' 0 1 = some CellState.Dead) ∨
       (get_cell_status (Board.new 2 2) 0 1 = some CellState.Dead ∧
          get_cell_status b' 0 1 = some CellState.Alive)) ∧
      ∀ x' y', ¬(x' = 0 ∧ y' = 1) →
        get_cell_status b' x' y' = get_cell_status (Board.new 2 2) x' y' :=
  claim_C9_toggle_flips_exactly_one 2 2 0 1 (Board.new 2 2)
    (by decide) (by decide) (by decide)

/-- C10: the grid-shape invariant holds after construction and after any
sequence of successful toggle and advance calls: the board always has
`h` rows of `w` cells each. -/
theorem claim_C10_shape_invariant (w h : Nat) (b : Board)
    (hr : Reachable w h b) : rectangular w h b := by
  induction hr with
  | init => exact rectangular_new w h
  | toggle _ hsw ih => exact rectangular_swap ih hsw
  | advance _ hadv ih => exact rectangular_update_board ih hadv

/-- Witness for C10 at a freshly constructed 3×4 board. -/
theorem claim_C10_witness : rectangular 3 4 (Board.new 3 4) :=
  claim_C10_shape_invariant 3 4 (Board.new 3 4) Reachable.init

end Conway
